import Mathlib

/-
  Verification of invest_functions.py (organize_data, historical_return,
  portfolio_statistics) against its natural-language specification.

  Modelling choices:
  - Python floats on monetary quantities are modelled as exact rationals;
    the Python builtin round(x, 2) (round-half-to-even at 2 decimal places)
    is modelled explicitly by round2 below.
  - A pandas NaN cell (missing dividend, undefined moving average, missing
    close in an outer merge) is modelled as Option.none; the float comparison
    close > NaN, which is False in Python, is modelled by maGT returning
    false on none.
  - Year-month period keys (the result of date[:7] in the source) are
    modelled as natural numbers; no claim depends on the string structure of
    the keys, only on their use as join keys.
  - pandas DataFrames are modelled as lists of rows; the integer row labels
    that pandas keeps after a positional slice are modelled explicitly by
    withIndex, since organize_data returns a sliced frame.
-/

namespace Invest

/-- Round half to even at integer precision: the behaviour of the Python
builtin round on the fractional part. -/
def rhe (q : ℚ) : ℤ :=
  let f := ⌊q⌋
  let r := q - f
  if r < 1/2 then f
  else if 1/2 < r then f + 1
  else if f % 2 = 0 then f else f + 1

/-- Python round(x, 2): round half to even at two decimal places. -/
def round2 (q : ℚ) : ℚ := (rhe (q * 100) : ℚ) / 100

/-- A year-month period key (the source computes these as date[:7]). -/
abbrev Date := ℕ

/-- Left lookup of a key in a (Date, value) table: the value merged onto a
price row for that key, none when the key is absent (a NaN cell). -/
def lookupCell (tbl : List (Date × ℚ)) (d : Date) : Option ℚ :=
  (tbl.find? (fun p => p.1 == d)).map Prod.snd

/-- pandas rolling(w).mean() over a column: at position i the mean of the
window of the last w entries ending at i, none (NaN) while the window has
not yet filled. -/
def rollingMean (w : ℕ) (xs : List ℚ) : List (Option ℚ) :=
  (List.range xs.length).map (fun i =>
    if i + 1 < w then none
    else some (((xs.take (i + 1)).drop (i + 1 - w)).sum / (w : ℚ)))

/-! ## organize_data: per-asset table and combined table -/

/-- One row of a per-asset table in organize_data: period key, close price
(none on a dividend-only row produced by the outer merge), moving average
(none when undefined or when no moving-average column was requested) and
dividend amount (none when no dividend row matched). -/
structure ARow where
  date : Date
  close : Option ℚ
  ma : Option ℚ
  div : Option ℚ
deriving DecidableEq, Repr

/-- The merge of the dividend table onto the price rows in organize_data,
lines 70-71: how = outer, so every price row is kept (with the matching
dividend or none) and every dividend row whose key matches no price row is
appended with a missing close. -/
def outerMergeDiv (priceRows : List ARow) (divs : List (Date × ℚ)) : List ARow :=
  priceRows.map (fun r => { r with div := lookupCell divs r.date })
    ++ (divs.filter (fun p => priceRows.all (fun r => r.date != p.1))).map
        (fun p => { date := p.1, close := none, ma := none, div := some p.2 })

/-- The per-asset table built by organize_data lines 67-71: the price
column, the rolling moving average of the close (only when trend is set,
with window trend_period), then the outer merge with the dividends. -/
def buildAssetTable (trend : Bool) (trend_period : ℕ)
    (prices divs : List (Date × ℚ)) : List ARow :=
  let closes := prices.map Prod.snd
  let mas := if trend then rollingMean trend_period closes
             else prices.map (fun _ => none)
  let priceRows := (prices.zip mas).map
    (fun q => { date := q.1.1, close := some q.1.2, ma := q.2, div := none : ARow })
  outerMergeDiv priceRows divs

/-- One row of the combined table: the period key and, per included asset,
its (close, moving average, dividend) cells. -/
structure CRow where
  date : Date
  cells : List (Option ℚ × Option ℚ × Option ℚ)
deriving DecidableEq, Repr

/-- A per-asset row widened into a combined row with a single asset. -/
def toCRow (r : ARow) : CRow := ⟨r.date, [(r.close, r.ma, r.div)]⟩

/-- The inner merge of the next asset table onto the combined table
(organize_data line 78): keep the combined rows, in order, whose key has a
match in the asset table, appending that asset's cells. -/
def innerMergeAsset (acc : List CRow) (tbl : List ARow) : List CRow :=
  acc.filterMap (fun c =>
    (tbl.find? (fun r => r.date == c.date)).map
      (fun r => { c with cells := c.cells ++ [(r.close, r.ma, r.div)] }))

/-- The source of one asset: its price CSV and its dividend CSV, each none
when the file is missing (FileNotFoundError in the source). -/
structure OrgAsset where
  price : Option (List (Date × ℚ))
  div : Option (List (Date × ℚ))
deriving DecidableEq, Repr

/-- The all_data frame of organize_data before the final slice: fold over
the assets; an asset whose price CSV is missing is skipped (continue, line
49), an asset whose dividend CSV is missing is likewise skipped (continue,
line 55); the first included asset seeds the frame and each later one is
inner-merged on the period key. -/
def allData (trend : Bool) (trend_period : ℕ) (srcs : List OrgAsset) : List CRow :=
  srcs.foldl (fun acc src =>
    match src.price with
    | none => acc
    | some prices =>
      match src.div with
      | none => acc
      | some divs =>
        let tbl := buildAssetTable trend trend_period prices divs
        match acc with
        | [] => tbl.map toCRow
        | _ => innerMergeAsset acc tbl) []

/-- A list with the pandas RangeIndex labels made explicit. -/
def withIndex (l : List α) : List (ℕ × α) := (List.range l.length).zip l

/-- organize_data, line 83: the combined frame positionally sliced from row
max(trend_period - 1, 0); a pandas slice keeps the original row labels, so
the pairs carry the labels of the unsliced frame. -/
def organize_data (trend : Bool) (trend_period : ℕ) (srcs : List OrgAsset) :
    List (ℕ × CRow) :=
  (withIndex (allData trend trend_period srcs)).drop (max (trend_period - 1) 0)

/-! ## historical_return: the simulator -/

/-- Kind of a transaction record. -/
inductive TxnKind
  | Buy
  | Sell
  | Dividend
deriving DecidableEq, Repr

/-- Which of the two tracked assets a record refers to. -/
inductive AssetId
  | Risky
  | Riskless
deriving DecidableEq, Repr

/-- The Units column of a transaction record. Buy and Dividend records
store an integer; the two Sell sites of the source (lines 225 and 246)
store the whole shares dict, which at that point holds the risky and the
riskless unit counts. -/
inductive UnitsVal
  | num (n : ℤ)
  | sharesDict (risky riskless : ℤ)
deriving DecidableEq, Repr

/-- One row of the transactions frame: Date, Transaction, Asset, Price,
Units, Value. -/
structure Txn where
  date : Date
  kind : TxnKind
  asset : AssetId
  price : ℚ
  units : UnitsVal
  value : ℚ
deriving DecidableEq, Repr

/-- One row of the focused_data frame consumed by the simulation loop:
period key, risky close, risky dividend cell, riskless close, riskless
dividend cell, and the moving-average cell (none encodes NaN). -/
structure SimRow where
  date : Date
  closeR : ℚ
  divR : Option ℚ
  closeL : ℚ
  divL : Option ℚ
  ma : Option ℚ
deriving DecidableEq, Repr

/-- The mutable state of the simulation loop: cash, the risky and riskless
unit counts, and the two output frames. -/
structure SimState where
  cash : ℚ
  sharesR : ℤ
  sharesL : ℤ
  txns : List Txn
  history : List (Date × ℚ)
deriving DecidableEq, Repr

/-- Dividend accrual, lines 207-214: for each key of the shares dict
(risky always; riskless only when a riskless asset was supplied), if the
dividend cell is non-null, add round(shares * dividend, 2) to cash and
append a Dividend record with Price and Value both the rounded amount and
Units 1. The record is appended whatever the rounded amount. -/
def divAccrue (ur : Bool) (s : SimState) (row : SimRow) : SimState :=
  let s1 := match row.divR with
    | none => s
    | some d =>
      let amt := round2 ((s.sharesR : ℚ) * d)
      { s with cash := s.cash + amt,
               txns := s.txns ++ [⟨row.date, .Dividend, .Risky, amt, .num 1, amt⟩] }
  if ur then
    match row.divL with
    | none => s1
    | some d =>
      let amt := round2 ((s1.sharesL : ℚ) * d)
      { s1 with cash := s1.cash + amt,
                txns := s1.txns ++ [⟨row.date, .Dividend, .Riskless, amt, .num 1, amt⟩] }
  else s1

/-- Line 229: shares_to_buy = cash // close, a floor division. -/
def buyUnits (c p : ℚ) : ℤ := ⌊c / p⌋

/-- Lines 230: the amount removed from cash on a purchase,
round(shares_to_buy * close, 2). -/
def buySpend (c p : ℚ) : ℚ := round2 ((buyUnits c p : ℚ) * p)

/-- Lines 221-226: liquidate the riskless position into cash, zero its
holding, and append a Sell record; the record is appended unconditionally,
its Units column is the shares dict after the zeroing and its Value is
computed from the already-zeroed holding, hence round(0 * close, 2). -/
def sellRiskless (s : SimState) (row : SimRow) : SimState :=
  { s with cash := s.cash + round2 ((s.sharesL : ℚ) * row.closeL),
           sharesL := 0,
           txns := s.txns ++ [⟨row.date, .Sell, .Riskless, row.closeL,
             .sharesDict s.sharesR 0, round2 ((0 : ℚ) * row.closeL)⟩] }

/-- Lines 242-247: liquidate the risky position into cash, zero its
holding, and append a Sell record, again unconditionally and with Value
computed from the already-zeroed holding. -/
def sellRisky (s : SimState) (row : SimRow) : SimState :=
  { s with cash := s.cash + round2 ((s.sharesR : ℚ) * row.closeR),
           sharesR := 0,
           txns := s.txns ++ [⟨row.date, .Sell, .Risky, row.closeR,
             .sharesDict 0 s.sharesL, round2 ((0 : ℚ) * row.closeR)⟩] }

/-- Lines 229-236: spend floor(cash / close) units' worth of cash on the
risky asset; a Buy record is appended only when shares_to_buy > 0. -/
def buyRisky (s : SimState) (row : SimRow) : SimState :=
  let n := buyUnits s.cash row.closeR
  let spend := buySpend s.cash row.closeR
  let s2 := { s with cash := s.cash - spend, sharesR := s.sharesR + n }
  if 0 < n then
    { s2 with txns := s2.txns ++ [⟨row.date, .Buy, .Risky, row.closeR, .num n, spend⟩] }
  else s2

/-- Lines 252-259: spend floor(cash / close) units' worth of cash on the
riskless asset; a Buy record is appended only when shares_to_buy > 0. -/
def buyRiskless (s : SimState) (row : SimRow) : SimState :=
  let n := buyUnits s.cash row.closeL
  let spend := buySpend s.cash row.closeL
  let s2 := { s with cash := s.cash - spend, sharesL := s.sharesL + n }
  if 0 < n then
    { s2 with txns := s2.txns ++ [⟨row.date, .Buy, .Riskless, row.closeL, .num n, spend⟩] }
  else s2

/-- The branch taken when the risky asset is selected (no trend, or close
above the moving average): sell the riskless position first when trend is
on (lines 220-226), then buy the risky asset. -/
def riskyBranch (trend : Bool) (s : SimState) (row : SimRow) : SimState :=
  buyRisky (if trend then sellRiskless s row else s) row

/-- The else branch, lines 239-259: sell the risky position, then buy the
riskless asset when trend is on. -/
def risklessBranch (trend : Bool) (s : SimState) (row : SimRow) : SimState :=
  if trend then buyRiskless (sellRisky s row) row else sellRisky s row

/-- Line 217: the allocation test close > moving_average. A null (NaN)
moving-average cell compares false, as a float comparison with NaN does. -/
def maGT (c : ℚ) (ma : Option ℚ) : Bool :=
  match ma with
  | none => false
  | some m => decide (m < c)

/-- Lines 261-265: append the end-of-period valuation, cash plus
round(shares * close, 2) for every key of the shares dict. -/
def addValuation (ur : Bool) (s : SimState) (row : SimRow) : SimState :=
  let v := s.cash + round2 ((s.sharesR : ℚ) * row.closeR)
           + (if ur then round2 ((s.sharesL : ℚ) * row.closeL) else 0)
  { s with history := s.history ++ [(row.date, v)] }

/-- One iteration of the simulation loop, lines 198-265: dividend accrual,
then the allocation test of line 217 choosing between the two branches,
then the valuation. -/
def step (trend ur : Bool) (s : SimState) (row : SimRow) : SimState :=
  let s1 := divAccrue ur s row
  let s2 :=
    if (!trend) || (trend && maGT row.closeR row.ma) then riskyBranch trend s1 row
    else risklessBranch trend s1 row
  addValuation ur s2 row

/-- The simulation of historical_return over an already-built row sequence:
cash starts at initial_cash, both holdings at 0, and when the frame is
non-empty the bootstrap history entry (rows[0].period, initial_cash) is
recorded at the top of the first iteration (lines 202-203), before that
row is processed. ur records whether a riskless asset was supplied (the
source's riskless_asset not being the empty string). -/
def historical_return (trend ur : Bool) (initial_cash : ℚ)
    (rows : List SimRow) : SimState :=
  let s0 : SimState := ⟨initial_cash, 0, 0, [], []⟩
  match rows with
  | [] => s0
  | r :: _ =>
    List.foldl (step trend ur) { s0 with history := [(r.date, initial_cash)] } rows

/-- Lines 168-170 (and 176-177): the merge of dividends onto prices inside
historical_return, how = left: exactly the price rows, each with the
matching dividend or none. -/
def leftMergeDiv (prices divs : List (Date × ℚ)) : List (Date × ℚ × Option ℚ) :=
  prices.map (fun p => (p.1, p.2, lookupCell divs p.1))

/-- Lines 168-190: the focused_data frame of historical_return. The risky
asset's prices and dividends are left-merged; when a riskless asset is
supplied its left-merged table is inner-joined on the period key; when
trend is set the moving-average column is added with rolling(10) - the
window is the literal 10 of line 188, the trend_period argument only names
the column. -/
def focusedData (trend ur : Bool) (trend_period : ℕ)
    (aPrices aDivs lPrices lDivs : List (Date × ℚ)) : List SimRow :=
  let combined := leftMergeDiv aPrices aDivs
  let base : List SimRow :=
    if ur then
      let combinedL := leftMergeDiv lPrices lDivs
      combined.filterMap (fun p =>
        (combinedL.find? (fun q => q.1 == p.1)).map
          (fun q => { date := p.1, closeR := p.2.1, divR := p.2.2,
                      closeL := q.2.1, divL := q.2.2, ma := none }))
    else
      combined.map (fun p => { date := p.1, closeR := p.2.1, divR := p.2.2,
                               closeL := 0, divL := none, ma := none })
  let mas := if trend then rollingMean 10 (base.map SimRow.closeR)
             else base.map (fun _ => none)
  (base.zip mas).map (fun q => { q.1 with ma := q.2 })

/-! ## portfolio_statistics: max drawdown -/

/-- The loop of lines 336-342: walk the values keeping the running peak;
a value at or above the peak replaces it, a value below it contributes the
drawdown (peak - value) / peak to the running maximum. -/
def maxDrawdownLoop : ℚ → ℚ → List ℚ → ℚ
  | _, md, [] => md
  | maxv, md, v :: rest =>
    if maxv ≤ v then maxDrawdownLoop v md rest
    else maxDrawdownLoop maxv (max md ((maxv - v) / maxv)) rest

/-- Lines 333-344: the max_drawdown statistic of portfolio_statistics over
the PortfolioValue column: peak starts at the first value, drawdown at 0. -/
def max_drawdown (values : List ℚ) : ℚ :=
  match values with
  | [] => 0
  | v0 :: rest => maxDrawdownLoop v0 0 rest

/-! ## Auxiliary lemmas -/

lemma rollingMean_length (w : ℕ) (xs : List ℚ) :
    (rollingMean w xs).length = xs.length := by
  simp [rollingMean]

lemma lookupCell_nil (d : Date) : lookupCell [] d = none := rfl

/-! ## Claim C2 -/

/-- Claim C2 against the code: in organize_data the moving-average window
is indeed trend_period (third conjunct), but in historical_return line 188
the rolling window is the literal 10, whatever trend_period is: with
trend_period = 5 the moving-average column of focused_data equals the
10-period rolling mean, which differs from the 5-period rolling mean. -/
theorem C2_bug :
    (focusedData true false 5
        ([(0,10),(1,0),(2,0),(3,0),(4,0),(5,0),(6,0),(7,0),(8,0),(9,0)] :
          List (Date × ℚ)) [] [] []).map SimRow.ma
      = rollingMean 10 [10,0,0,0,0,0,0,0,0,0] ∧
    rollingMean 10 [10,0,0,0,0,0,0,0,0,0] ≠ rollingMean 5 [10,0,0,0,0,0,0,0,0,0] ∧
    ∀ (tp : ℕ) (prices : List (Date × ℚ)),
      (buildAssetTable true tp prices []).map ARow.ma
        = rollingMean tp (prices.map Prod.snd) := by
  refine ⟨?_, ?_, ?_⟩
  · norm_num [focusedData, leftMergeDiv, lookupCell, rollingMean, List.range_succ]
  · norm_num [rollingMean, List.range_succ]
  intro tp prices
  unfold buildAssetTable outerMergeDiv
  simp only [if_pos rfl, List.filter_nil, List.map_nil, List.append_nil, List.map_map,
    if_true]
  have h : (rollingMean tp (prices.map Prod.snd)).length ≤ prices.length := by
    rw [rollingMean_length, List.length_map]
  calc ((prices.zip (rollingMean tp (prices.map Prod.snd))).map
          (ARow.ma ∘ (fun r => { r with div := lookupCell [] r.date }) ∘
            (fun q => { date := q.1.1, close := some q.1.2, ma := q.2, div := none : ARow })))
      = (prices.zip (rollingMean tp (prices.map Prod.snd))).map Prod.snd := by
        apply List.map_congr_left; intro q _; rfl
    _ = rollingMean tp (prices.map Prod.snd) := List.map_snd_zip _ _ h

/-! ## Counterexamples to claims C1, C3, C4, C5, C6, C7 -/

/-- Claim C1 fails as stated: with initial cash 10.016 and a single period
whose close price is 10.016, the purchase of one unit spends
round(1 x 10.016, 2) = 10.02 > 10.016 and the cash balance ends negative. -/
theorem C1_counterexample :
    (historical_return false false (1252/125)
        [⟨0, 1252/125, none, 1, none, none⟩]).cash < 0 := by
  norm_num [historical_return, step, divAccrue, riskyBranch, buyRisky, sellRiskless,
    risklessBranch, sellRisky, buyRiskless, addValuation, maGT, buyUnits, buySpend,
    round2, rhe]

/-- Claim C3 fails as stated: an asset whose price series is present but
whose dividend series is missing is skipped entirely by organize_data (the
output is empty), while the same asset with an empty-but-present dividend
series is included. -/
theorem C3_counterexample :
    organize_data false 0 [⟨some [(0,10)], none⟩] = [] ∧
    organize_data false 0 [⟨some [(0,10)], some []⟩] ≠ [] := by
  constructor
  · rfl
  · simp [organize_data, allData, buildAssetTable, outerMergeDiv, toCRow,
      lookupCell, rollingMean, withIndex]

/-- Claim C4 fails as stated: in trend mode with zero riskless units held,
staying in the risky asset still appends a Sell record for the riskless
asset - its Units column shows the zeroed dict and its Value is 0. -/
theorem C4_counterexample :
    (historical_return true true 100 [⟨0, 10, none, 1, none, some 5⟩]).txns
      = [⟨0, .Sell, .Riskless, 1, .sharesDict 0 0, 0⟩,
         ⟨0, .Buy, .Risky, 10, .num 10, 100⟩] := by
  norm_num [historical_return, step, divAccrue, riskyBranch, buyRisky, sellRiskless,
    risklessBranch, sellRisky, buyRiskless, addValuation, maGT, buyUnits, buySpend,
    round2, rhe]

/-- Claim C5 fails as stated: with zero units held, a non-null dividend
cell still produces a Dividend record whose computed amount is exactly 0. -/
theorem C5_counterexample :
    (historical_return false false 100 [⟨0, 10, some 5, 1, none, none⟩]).txns
      = [⟨0, .Dividend, .Risky, 0, .num 1, 0⟩,
         ⟨0, .Buy, .Risky, 10, .num 10, 100⟩] := by
  norm_num [historical_return, step, divAccrue, riskyBranch, buyRisky, sellRiskless,
    risklessBranch, sellRisky, buyRiskless, addValuation, maGT, buyUnits, buySpend,
    round2, rhe]

/-- Claim C6 fails as stated for organize_data: its merge of dividends
onto prices is a full outer join, so the dividend-only period 1, absent
from the price series, is added to the per-asset table. -/
theorem C6_counterexample :
    (buildAssetTable false 0 [(0,10)] [(1,1)]).map ARow.date = [0, 1] ∧
    ¬ ((1 : Date) ∈ ([((0 : Date), (10 : ℚ))].map Prod.fst)) := by
  constructor
  · rfl
  · simp

/-- Claim C7 fails as stated: with trend_period = 2 and three combined
rows, organize_data drops one leading row but the remaining rows keep
their pandas labels 1 and 2; they are not re-indexed to a dense 0-based
sequence. -/
theorem C7_counterexample :
    (organize_data false 2 [⟨some [(0,1),(1,1),(2,1)], some []⟩]).map Prod.fst = [1, 2] ∧
    (organize_data false 2 [⟨some [(0,1),(1,1),(2,1)], some []⟩]).map Prod.fst
      ≠ List.range (organize_data false 2 [⟨some [(0,1),(1,1),(2,1)], some []⟩]).length := by
  constructor
  · rfl
  · have h1 : (organize_data false 2 [⟨some [(0,1),(1,1),(2,1)], some []⟩]).map Prod.fst
        = [1, 2] := rfl
    have h2 : (organize_data false 2 [⟨some [(0,1),(1,1),(2,1)], some []⟩]).length = 2 := rfl
    rw [h1, h2]
    decide

/-! ## Claim C9: max drawdown bounds -/

lemma maxDrawdownLoop_ge (l : List ℚ) :
    ∀ maxv md : ℚ, md ≤ maxDrawdownLoop maxv md l := by
  induction l with
  | nil => intro maxv md; simp [maxDrawdownLoop]
  | cons v rest ih =>
    intro maxv md
    simp only [maxDrawdownLoop]
    split
    · exact ih _ _
    · exact le_trans (le_max_left _ _) (ih _ _)

lemma maxDrawdownLoop_bounds (l : List ℚ) :
    ∀ maxv md : ℚ, 0 ≤ maxv → 0 ≤ md → md ≤ 1 → (∀ v ∈ l, 0 ≤ v) →
      0 ≤ maxDrawdownLoop maxv md l ∧ maxDrawdownLoop maxv md l ≤ 1 := by
  induction l with
  | nil => intro maxv md _ h0 h1 _; exact ⟨h0, h1⟩
  | cons v rest ih =>
    intro maxv md hmax h0 h1 hl
    have hv : 0 ≤ v := hl v (List.mem_cons_self v rest)
    have hrest : ∀ u ∈ rest, 0 ≤ u := fun u hu => hl u (List.mem_cons_of_mem v hu)
    simp only [maxDrawdownLoop]
    split
    · exact ih v md hv h0 h1 hrest
    · rename_i hlt
      have hvm : v < maxv := lt_of_not_le hlt
      have hpos : 0 < maxv := lt_of_le_of_lt hv hvm
      have hd0 : 0 ≤ (maxv - v) / maxv :=
        div_nonneg (by linarith) hpos.le
      have hd1 : (maxv - v) / maxv ≤ 1 := by
        rw [div_le_one hpos]; linarith
      exact ih maxv _ hmax (le_max_of_le_right hd0)
        (max_le h1 hd1) hrest

lemma maxDrawdownLoop_sorted (l : List ℚ) :
    ∀ maxv : ℚ, List.Chain' (· ≤ ·) (maxv :: l) → maxDrawdownLoop maxv 0 l = 0 := by
  induction l with
  | nil => intro maxv _; rfl
  | cons v rest ih =>
    intro maxv hch
    rw [List.chain'_cons] at hch
    simp only [maxDrawdownLoop, if_pos hch.1]
    exact ih v hch.2

lemma maxDrawdownLoop_pos (l : List ℚ) :
    ∀ maxv md : ℚ, 0 ≤ md → (∀ v ∈ l, 0 ≤ v) →
      ¬ List.Chain' (· ≤ ·) (maxv :: l) → 0 < maxDrawdownLoop maxv md l := by
  induction l with
  | nil => intro maxv md _ _ hch; exact absurd (List.chain'_singleton maxv) hch
  | cons v rest ih =>
    intro maxv md hmd hl hch
    have hv : 0 ≤ v := hl v (List.mem_cons_self v rest)
    have hrest : ∀ u ∈ rest, 0 ≤ u := fun u hu => hl u (List.mem_cons_of_mem v hu)
    rw [List.chain'_cons] at hch
    simp only [maxDrawdownLoop]
    split
    · rename_i hle
      exact ih v md hmd hrest (fun hc => hch ⟨hle, hc⟩)
    · rename_i hlt
      have hvm : v < maxv := lt_of_not_le hlt
      have hpos : 0 < maxv := lt_of_le_of_lt hv hvm
      have hd : 0 < (maxv - v) / maxv := div_pos (by linarith) hpos
      exact lt_of_lt_of_le (lt_max_of_lt_right hd) (maxDrawdownLoop_ge rest maxv _)

/-- Claim C9: for a value history of non-negative values with at least two
entries, the max_drawdown of portfolio_statistics lies in the closed
interval from 0 to 1, and it is 0 exactly when the value sequence is
non-decreasing. -/
theorem C9_max_drawdown (values : List ℚ)
    (hlen : 2 ≤ values.length) (hval : ∀ v ∈ values, 0 ≤ v) :
    0 ≤ max_drawdown values ∧ max_drawdown values ≤ 1 ∧
      (max_drawdown values = 0 ↔ List.Chain' (· ≤ ·) values) := by
  match values, hlen with
  | v0 :: rest, _ =>
    have hv0 : 0 ≤ v0 := hval v0 (List.mem_cons_self v0 rest)
    have hrest : ∀ u ∈ rest, 0 ≤ u := fun u hu => hval u (List.mem_cons_of_mem v0 hu)
    have hb := maxDrawdownLoop_bounds rest v0 0 hv0 le_rfl zero_le_one hrest
    refine ⟨hb.1, hb.2, ?_, fun hch => maxDrawdownLoop_sorted rest v0 hch⟩
    intro h0
    by_contra hch
    exact absurd h0 (ne_of_gt (maxDrawdownLoop_pos rest v0 0 le_rfl hrest hch))

/-- Witness for C9 at the concrete history 10, 5, 15: the drawdown is
strictly positive and at most 1, and the sequence is not non-decreasing. -/
theorem C9_witness :
    0 ≤ max_drawdown [10, 5, 15] ∧ max_drawdown [10, 5, 15] ≤ 1 ∧
      (max_drawdown [10, 5, 15] = 0 ↔ List.Chain' (· ≤ ·) ([10, 5, 15] : List ℚ)) :=
  C9_max_drawdown [10, 5, 15] (by norm_num) (by norm_num)

/-! ## Claim C8: shape of the value history -/

lemma divAccrue_history (ur : Bool) (s : SimState) (row : SimRow) :
    (divAccrue ur s row).history = s.history := by
  unfold divAccrue
  cases row.divR <;> cases ur <;> cases row.divL <;> rfl

lemma buyRisky_history (s : SimState) (row : SimRow) :
    (buyRisky s row).history = s.history := by
  unfold buyRisky
  dsimp only
  split <;> rfl

lemma buyRiskless_history (s : SimState) (row : SimRow) :
    (buyRiskless s row).history = s.history := by
  unfold buyRiskless
  dsimp only
  split <;> rfl

lemma sellRisky_fields (s : SimState) (row : SimRow) :
    (sellRisky s row).cash = s.cash + round2 ((s.sharesR : ℚ) * row.closeR) ∧
    (sellRisky s row).sharesR = 0 ∧
    (sellRisky s row).sharesL = s.sharesL :=
  ⟨rfl, rfl, rfl⟩

lemma buyRiskless_fields (s : SimState) (row : SimRow) :
    (buyRiskless s row).cash = s.cash - buySpend s.cash row.closeL ∧
    (buyRiskless s row).sharesR = s.sharesR ∧
    (buyRiskless s row).sharesL = s.sharesL + buyUnits s.cash row.closeL := by
  unfold buyRiskless
  dsimp only
  split <;> exact ⟨rfl, rfl, rfl⟩

lemma riskyBranch_history (trend : Bool) (s : SimState) (row : SimRow) :
    (riskyBranch trend s row).history = s.history := by
  unfold riskyBranch
  rw [buyRisky_history]
  cases trend
  · rfl
  · rfl

lemma risklessBranch_history (trend : Bool) (s : SimState) (row : SimRow) :
    (risklessBranch trend s row).history = s.history := by
  unfold risklessBranch
  cases trend
  · rfl
  · rw [if_pos rfl, buyRiskless_history]
    rfl

lemma step_eq (trend ur : Bool) (s : SimState) (row : SimRow) :
    step trend ur s row
      = addValuation ur
          (if (!trend) || (trend && maGT row.closeR row.ma) then
            riskyBranch trend (divAccrue ur s row) row
          else risklessBranch trend (divAccrue ur s row) row) row := rfl

lemma addValuation_history (ur : Bool) (s : SimState) (row : SimRow) :
    (addValuation ur s row).history
      = s.history ++ [(row.date,
          s.cash + round2 ((s.sharesR : ℚ) * row.closeR)
            + (if ur then round2 ((s.sharesL : ℚ) * row.closeL) else 0))] := rfl

lemma step_history (trend ur : Bool) (s : SimState) (row : SimRow) :
    ∃ v, (step trend ur s row).history = s.history ++ [(row.date, v)] := by
  rw [step_eq trend ur s row, addValuation_history]
  have hh : (if (!trend) || (trend && maGT row.closeR row.ma) then
        riskyBranch trend (divAccrue ur s row) row
      else risklessBranch trend (divAccrue ur s row) row).history = s.history := by
    split
    · rw [riskyBranch_history, divAccrue_history]
    · rw [risklessBranch_history, divAccrue_history]
  rw [hh]
  exact ⟨_, rfl⟩

lemma foldl_step_history (trend ur : Bool) (rows : List SimRow) :
    ∀ s : SimState, ∃ tail,
      (List.foldl (step trend ur) s rows).history = s.history ++ tail ∧
      tail.length = rows.length ∧
      tail.map Prod.fst = rows.map SimRow.date := by
  induction rows with
  | nil => intro s; exact ⟨[], by simp⟩
  | cons r rest ih =>
    intro s
    obtain ⟨v, hv⟩ := step_history trend ur s r
    obtain ⟨tail, htl, hlen, hmap⟩ := ih (step trend ur s r)
    refine ⟨(r.date, v) :: tail, ?_, by simp [hlen], by simp [hmap]⟩
    rw [List.foldl_cons] at *
    rw [htl, hv, List.append_assoc]
    rfl

/-- Claim C8: for every non-empty row sequence the value history has
length(rows) + 1 entries; its first entry is the bootstrap pair
(rows[0].period, initial_cash), emitted before row 0 is processed, and the
second entry carries the same period rows[0].period. -/
theorem C8_history (trend ur : Bool) (ic : ℚ) (r : SimRow) (rest : List SimRow) :
    (historical_return trend ur ic (r :: rest)).history.length
      = (r :: rest).length + 1 ∧
    (historical_return trend ur ic (r :: rest)).history.head? = some (r.date, ic) ∧
    ((historical_return trend ur ic (r :: rest)).history[1]?).map Prod.fst
      = some r.date := by
  obtain ⟨tail, htl, hlen, hmap⟩ :=
    foldl_step_history trend ur (r :: rest) ⟨ic, 0, 0, [], [(r.date, ic)]⟩
  have hret : (historical_return trend ur ic (r :: rest)).history
      = (r.date, ic) :: tail := by
    unfold historical_return
    rw [htl]
    rfl
  refine ⟨?_, ?_, ?_⟩
  · rw [hret]; simp [hlen]
  · rw [hret]; rfl
  · rw [hret]
    have h0 : tail[0]?.map Prod.fst = (tail.map Prod.fst)[0]? := by
      simp
    cases tail with
    | nil => simp at hlen
    | cons t ts =>
      have : t.fst = r.date := by
        have := congrArg (fun l => l.head?) hmap
        simpa using this
      simp [this]

/-! ## Claim C10: a null moving average selects the riskless asset -/

/-- Claim C10: when trend is on and the row's moving-average cell is null,
the strict comparison of line 217 is false, so the riskless branch runs:
after the step the risky holding is 0, the riskless holding has grown by
the floor of the post-liquidation cash over the riskless close, and the
cash is that amount's price subtracted from the post-liquidation cash. -/
theorem C10_null_ma (s : SimState) (row : SimRow) (hma : row.ma = none) :
    (step true true s row).sharesR = 0 ∧
    (step true true s row).sharesL
      = (divAccrue true s row).sharesL
        + buyUnits ((divAccrue true s row).cash
            + round2 (((divAccrue true s row).sharesR : ℚ) * row.closeR)) row.closeL ∧
    (step true true s row).cash
      = ((divAccrue true s row).cash
            + round2 (((divAccrue true s row).sharesR : ℚ) * row.closeR))
        - buySpend ((divAccrue true s row).cash
            + round2 (((divAccrue true s row).sharesR : ℚ) * row.closeR)) row.closeL := by
  have hstep : step true true s row
      = addValuation true (buyRiskless (sellRisky (divAccrue true s row) row) row) row := by
    rw [step_eq]
    rw [hma]
    rfl
  rw [hstep]
  refine ⟨?_, ?_, ?_⟩
  · show (buyRiskless (sellRisky (divAccrue true s row) row) row).sharesR = 0
    rw [(buyRiskless_fields _ _).2.1]
    exact (sellRisky_fields _ _).2.1
  · show (buyRiskless (sellRisky (divAccrue true s row) row) row).sharesL = _
    rw [(buyRiskless_fields _ _).2.2, (sellRisky_fields _ _).2.2,
      (sellRisky_fields _ _).1]
  · show (buyRiskless (sellRisky (divAccrue true s row) row) row).cash = _
    rw [(buyRiskless_fields _ _).1, (sellRisky_fields _ _).1]

/-- Witness for C10 at a concrete state holding 3 risky units and a row
whose moving-average cell is null. -/
theorem C10_witness :
    (step true true ⟨100, 3, 0, [], []⟩ ⟨0, 10, none, 2, none, none⟩).sharesR = 0 ∧
    (step true true ⟨100, 3, 0, [], []⟩ ⟨0, 10, none, 2, none, none⟩).sharesL
      = (divAccrue true ⟨100, 3, 0, [], []⟩ ⟨0, 10, none, 2, none, none⟩).sharesL
        + buyUnits ((divAccrue true ⟨100, 3, 0, [], []⟩ ⟨0, 10, none, 2, none, none⟩).cash
            + round2 (((divAccrue true ⟨100, 3, 0, [], []⟩
                ⟨0, 10, none, 2, none, none⟩).sharesR : ℚ) * 10)) 2 ∧
    (step true true ⟨100, 3, 0, [], []⟩ ⟨0, 10, none, 2, none, none⟩).cash
      = ((divAccrue true ⟨100, 3, 0, [], []⟩ ⟨0, 10, none, 2, none, none⟩).cash
            + round2 (((divAccrue true ⟨100, 3, 0, [], []⟩
                ⟨0, 10, none, 2, none, none⟩).sharesR : ℚ) * 10))
        - buySpend ((divAccrue true ⟨100, 3, 0, [], []⟩ ⟨0, 10, none, 2, none, none⟩).cash
            + round2 (((divAccrue true ⟨100, 3, 0, [], []⟩
                ⟨0, 10, none, 2, none, none⟩).sharesR : ℚ) * 10)) 2 :=
  C10_null_ma ⟨100, 3, 0, [], []⟩ ⟨0, 10, none, 2, none, none⟩ rfl

/-! ## Claims C4 and C5: which records reach the transaction log -/

/-- The Sell records of a transaction list. -/
def isSell (t : Txn) : Bool := t.kind == TxnKind.Sell

/-- The Dividend records of a transaction list. -/
def isDividendTxn (t : Txn) : Bool := t.kind == TxnKind.Dividend

/-- How many Dividend records one row produces: one per non-null dividend
cell among the tracked assets, independently of the amounts. -/
def divCount (ur : Bool) (row : SimRow) : ℕ :=
  (if row.divR.isSome then 1 else 0) + (if ur && row.divL.isSome then 1 else 0)

lemma divAccrue_txns_sell (ur : Bool) (s : SimState) (row : SimRow) :
    (divAccrue ur s row).txns.filter isSell = s.txns.filter isSell := by
  unfold divAccrue
  cases row.divR <;> cases ur <;> cases row.divL <;>
    simp [List.filter_append, isSell]

lemma divAccrue_txns_div (ur : Bool) (s : SimState) (row : SimRow) :
    ((divAccrue ur s row).txns.filter isDividendTxn).length
      = (s.txns.filter isDividendTxn).length + divCount ur row := by
  unfold divAccrue divCount
  cases row.divR <;> cases ur <;> cases row.divL <;>
    simp [List.filter_append, isDividendTxn]

lemma sellRiskless_txns_sell (s : SimState) (row : SimRow) :
    ((sellRiskless s row).txns.filter isSell).length
      = (s.txns.filter isSell).length + 1 := by
  unfold sellRiskless
  simp [List.filter_append, isSell]

lemma sellRisky_txns_sell (s : SimState) (row : SimRow) :
    ((sellRisky s row).txns.filter isSell).length
      = (s.txns.filter isSell).length + 1 := by
  unfold sellRisky
  simp [List.filter_append, isSell]

lemma sellRiskless_txns_div (s : SimState) (row : SimRow) :
    (sellRiskless s row).txns.filter isDividendTxn = s.txns.filter isDividendTxn := by
  unfold sellRiskless
  simp [List.filter_append, isDividendTxn]

lemma sellRisky_txns_div (s : SimState) (row : SimRow) :
    (sellRisky s row).txns.filter isDividendTxn = s.txns.filter isDividendTxn := by
  unfold sellRisky
  simp [List.filter_append, isDividendTxn]

lemma buyRisky_txns_sell (s : SimState) (row : SimRow) :
    (buyRisky s row).txns.filter isSell = s.txns.filter isSell := by
  unfold buyRisky
  dsimp only
  split <;> simp [List.filter_append, isSell]

lemma buyRiskless_txns_sell (s : SimState) (row : SimRow) :
    (buyRiskless s row).txns.filter isSell = s.txns.filter isSell := by
  unfold buyRiskless
  dsimp only
  split <;> simp [List.filter_append, isSell]

lemma buyRisky_txns_div (s : SimState) (row : SimRow) :
    (buyRisky s row).txns.filter isDividendTxn = s.txns.filter isDividendTxn := by
  unfold buyRisky
  dsimp only
  split <;> simp [List.filter_append, isDividendTxn]

lemma buyRiskless_txns_div (s : SimState) (row : SimRow) :
    (buyRiskless s row).txns.filter isDividendTxn = s.txns.filter isDividendTxn := by
  unfold buyRiskless
  dsimp only
  split <;> simp [List.filter_append, isDividendTxn]

lemma addValuation_txns (ur : Bool) (s : SimState) (row : SimRow) :
    (addValuation ur s row).txns = s.txns := rfl

lemma step_txns_sell (trend ur : Bool) (s : SimState) (row : SimRow) :
    ((step trend ur s row).txns.filter isSell).length
      = (s.txns.filter isSell).length + (if trend then 1 else 0) := by
  rw [step_eq, addValuation_txns]
  cases trend
  · rw [if_pos (by simp)]
    unfold riskyBranch
    rw [buyRisky_txns_sell]
    simp [divAccrue_txns_sell]
  · split
    · unfold riskyBranch
      rw [if_pos rfl, buyRisky_txns_sell, sellRiskless_txns_sell,
        divAccrue_txns_sell]
      simp
    · unfold risklessBranch
      rw [if_pos rfl, buyRiskless_txns_sell, sellRisky_txns_sell,
        divAccrue_txns_sell]
      simp

lemma step_txns_div (trend ur : Bool) (s : SimState) (row : SimRow) :
    ((step trend ur s row).txns.filter isDividendTxn).length
      = (s.txns.filter isDividendTxn).length + divCount ur row := by
  rw [step_eq, addValuation_txns]
  split
  · unfold riskyBranch
    rw [buyRisky_txns_div]
    cases trend
    · rw [if_neg (by simp), divAccrue_txns_div]
    · rw [if_pos rfl, sellRiskless_txns_div, divAccrue_txns_div]
  · unfold risklessBranch
    cases trend
    · rw [if_neg (by simp), sellRisky_txns_div, divAccrue_txns_div]
    · rw [if_pos rfl, buyRiskless_txns_div, sellRisky_txns_div, divAccrue_txns_div]

lemma foldl_txns_sell (trend ur : Bool) (rows : List SimRow) :
    ∀ s : SimState,
      ((List.foldl (step trend ur) s rows).txns.filter isSell).length
        = (s.txns.filter isSell).length + (if trend then rows.length else 0) := by
  induction rows with
  | nil => intro s; cases trend <;> simp
  | cons r rest ih =>
    intro s
    rw [List.foldl_cons, ih, step_txns_sell]
    cases trend <;> simp <;> omega

lemma foldl_txns_div (trend ur : Bool) (rows : List SimRow) :
    ∀ s : SimState,
      ((List.foldl (step trend ur) s rows).txns.filter isDividendTxn).length
        = (s.txns.filter isDividendTxn).length + (rows.map (divCount ur)).sum := by
  induction rows with
  | nil => intro s; simp
  | cons r rest ih =>
    intro s
    rw [List.foldl_cons, ih, step_txns_div]
    simp
    omega

/-- Claim C4, amended to what the code does: a run without trend-following
never appends a Sell record, while a trend-following run appends exactly
one Sell record on every period, whatever the liquidated unit count is -
including 0 units, as the counterexample shows. -/
theorem C4_amended (ur : Bool) (ic ic2 : ℚ) (rows rows2 : List SimRow) :
    ((historical_return false ur ic rows).txns.filter isSell).length = 0 ∧
    ((historical_return true true ic2 rows2).txns.filter isSell).length
      = rows2.length := by
  constructor
  · unfold historical_return
    cases rows with
    | nil => rfl
    | cons r rest => rw [foldl_txns_sell]; simp
  · unfold historical_return
    cases rows2 with
    | nil => rfl
    | cons r rest => rw [foldl_txns_sell]; simp

/-- Claim C5, amended to what the code does: a Dividend record is appended
exactly when the asset's dividend cell is non-null, regardless of the
computed amount; the total number of Dividend records is the number of
non-null dividend cells among the tracked assets over all rows. -/
theorem C5_amended (trend ur : Bool) (ic : ℚ) (rows : List SimRow) :
    ((historical_return trend ur ic rows).txns.filter isDividendTxn).length
      = (rows.map (divCount ur)).sum := by
  unfold historical_return
  cases rows with
  | nil => rfl
  | cons r rest => rw [foldl_txns_div]; simp

/-! ## Claim C3: a missing dividend series skips the asset -/

/-- Claim C3, amended to what the code does: an asset whose price series
is present but whose dividend series is missing is not tolerated - it is
skipped exactly like an asset with a missing price series, so removing it
from the asset list leaves the aligned output unchanged wherever it is
placed. -/
theorem C3_amended (trend : Bool) (tp : ℕ) (xs ys : List OrgAsset)
    (prices : List (Date × ℚ)) :
    organize_data trend tp (xs ++ ⟨some prices, none⟩ :: ys)
      = organize_data trend tp (xs ++ ys) := by
  unfold organize_data allData
  rw [List.foldl_append, List.foldl_append, List.foldl_cons]

/-! ## Claim C6: how dividends are merged onto prices -/

lemma allMapComp {α β : Type} (l : List α) (f : α → β) (p : β → Bool) :
    (l.map f).all p = l.all (fun a => p (f a)) := by
  induction l with
  | nil => rfl
  | cons x xs ih => simp [List.all_cons, ih]

lemma outerMergeDiv_dates (priceRows : List ARow) (divs : List (Date × ℚ)) :
    (outerMergeDiv priceRows divs).map ARow.date
      = priceRows.map ARow.date
        ++ (divs.filter
            (fun p => (priceRows.map ARow.date).all (fun d => d != p.1))).map Prod.fst := by
  unfold outerMergeDiv
  rw [List.map_append]
  have h1 : ((priceRows.map (fun r => { r with div := lookupCell divs r.date })).map ARow.date)
      = priceRows.map ARow.date := by
    rw [List.map_map]
    exact List.map_congr_left (fun r _ => rfl)
  have hc : ∀ p ∈ divs,
      (priceRows.all fun r => r.date != p.1)
        = ((priceRows.map ARow.date).all fun d => d != p.1) := by
    intro p _
    rw [allMapComp]
  have h2 : (((divs.filter (fun p => priceRows.all fun r => r.date != p.1)).map
        (fun p => ({ date := p.1, close := none, ma := none, div := some p.2 } : ARow))).map
        ARow.date)
      = (divs.filter
          (fun p => (priceRows.map ARow.date).all (fun d => d != p.1))).map Prod.fst := by
    rw [List.map_map, List.filter_congr hc]
    exact List.map_congr_left (fun p _ => rfl)
  rw [h1, h2]

lemma zipRows_dates (prices : List (Date × ℚ)) (mas : List (Option ℚ))
    (h : prices.length ≤ mas.length) :
    ((prices.zip mas).map
        (fun q => ({ date := q.1.1, close := some q.1.2, ma := q.2, div := none } : ARow))).map
        ARow.date
      = prices.map Prod.fst := by
  rw [List.map_map]
  calc (prices.zip mas).map
        (ARow.date ∘ fun q =>
          ({ date := q.1.1, close := some q.1.2, ma := q.2, div := none } : ARow))
      = (prices.zip mas).map (Prod.fst ∘ Prod.fst) :=
        List.map_congr_left (fun q _ => rfl)
    _ = ((prices.zip mas).map Prod.fst).map Prod.fst := (List.map_map _ _ _).symm
    _ = prices.map Prod.fst := by rw [List.map_fst_zip _ _ h]

lemma buildAssetTable_dates (trend : Bool) (tp : ℕ) (prices divs : List (Date × ℚ)) :
    (buildAssetTable trend tp prices divs).map ARow.date
      = prices.map Prod.fst
        ++ (divs.filter (fun p => prices.all (fun q => q.1 != p.1))).map Prod.fst := by
  have hlen : prices.length
      ≤ (if trend then rollingMean tp (prices.map Prod.snd)
          else prices.map (fun _ => none)).length := by
    split <;> simp [rollingMean_length]
  show (outerMergeDiv
      ((prices.zip (if trend then rollingMean tp (prices.map Prod.snd)
          else prices.map (fun _ => none))).map
        (fun q => ({ date := q.1.1, close := some q.1.2, ma := q.2, div := none } : ARow)))
      divs).map ARow.date = _
  rw [outerMergeDiv_dates, zipRows_dates prices _ hlen]
  have hc : ∀ p ∈ divs,
      ((prices.map Prod.fst).all fun d => d != p.1)
        = (prices.all fun q => q.1 != p.1) := by
    intro p _
    rw [allMapComp]
  rw [List.filter_congr hc]

/-- Claim C6, amended to what the code does: inside historical_return the
merge is indeed a left join (every price period kept in order, the
dividend cell looked up per price period), but inside organize_data the
merge is a full outer join - the period keys of the per-asset table are
the price periods followed by every dividend period with no matching
price row, so dividend-only periods are added to the table. -/
theorem C6_amended (trend : Bool) (tp : ℕ) (prices divs : List (Date × ℚ)) :
    (leftMergeDiv prices divs).map (fun r => r.1) = prices.map Prod.fst ∧
    (leftMergeDiv prices divs).map (fun r => r.2.2)
      = prices.map (fun p => lookupCell divs p.1) ∧
    (buildAssetTable trend tp prices divs).map ARow.date
      = prices.map Prod.fst
        ++ (divs.filter (fun p => prices.all (fun q => q.1 != p.1))).map Prod.fst := by
  refine ⟨?_, ?_, buildAssetTable_dates trend tp prices divs⟩
  · rw [leftMergeDiv, List.map_map]
    exact List.map_congr_left (fun p _ => rfl)
  · rw [leftMergeDiv, List.map_map]
    exact List.map_congr_left (fun p _ => rfl)

/-! ## Claim C7: the final slice of organize_data -/

lemma zip_drop (n : ℕ) :
    ∀ {α β : Type} (a : List α) (b : List β),
      (a.zip b).drop n = (a.drop n).zip (b.drop n) := by
  induction n with
  | zero => intro α β a b; rfl
  | succ m ih =>
    intro α β a b
    cases a with
    | nil => simp
    | cons x xs =>
      cases b with
      | nil => simp [List.zip_nil_right]
      | cons y ys => simpa using ih xs ys

/-- Claim C7, amended to what the code does: for trend_period > 0 the
slice does drop exactly the leading trend_period - 1 combined rows, but
the surviving rows keep their original pandas labels - the label sequence
is the range of the unsliced frame with its first trend_period - 1 entries
dropped, not a dense 0-based sequence. -/
theorem C7_amended (trend : Bool) (tp : ℕ) (srcs : List OrgAsset) (htp : 0 < tp) :
    (organize_data trend tp srcs).map Prod.snd
      = (allData trend tp srcs).drop (tp - 1) ∧
    (organize_data trend tp srcs).map Prod.fst
      = (List.range (allData trend tp srcs).length).drop (tp - 1) := by
  unfold organize_data withIndex
  rw [max_eq_left (Nat.zero_le _), zip_drop]
  constructor
  · apply List.map_snd_zip
    simp
  · apply List.map_fst_zip
    simp

/-- Witness for C7 at trend_period 2 and a single three-row asset. -/
theorem C7_witness :
    (organize_data false 2 [⟨some [(0,1),(1,1),(2,1)], some []⟩]).map Prod.snd
      = (allData false 2 [⟨some [(0,1),(1,1),(2,1)], some []⟩]).drop 1 ∧
    (organize_data false 2 [⟨some [(0,1),(1,1),(2,1)], some []⟩]).map Prod.fst
      = (List.range (allData false 2 [⟨some [(0,1),(1,1),(2,1)], some []⟩]).length).drop 1 :=
  C7_amended false 2 [⟨some [(0,1),(1,1),(2,1)], some []⟩] (by norm_num)

/-! ## Claim C1: non-negativity of cash and holdings

The claim fails for prices of more than two decimal places (see
C1_counterexample); it holds when every monetary input is an exact
multiple of 0.01, because then every round(x, 2) of the code is the
identity on the amounts it is applied to. -/

/-- A rational that is an exact multiple of 0.01 - a monetary amount the
source's round(x, 2) leaves unchanged. -/
def TwoDec (q : ℚ) : Prop := ∃ n : ℤ, q = (n : ℚ) / 100

lemma rhe_intCast (n : ℤ) : rhe (n : ℚ) = n := by
  unfold rhe
  norm_num [Int.floor_intCast]

lemma twoDec_round2 {q : ℚ} (h : TwoDec q) : round2 q = q := by
  obtain ⟨n, rfl⟩ := h
  unfold round2
  rw [div_mul_cancel₀ _ (by norm_num : (100 : ℚ) ≠ 0), rhe_intCast]

lemma twoDec_sub {a b : ℚ} (ha : TwoDec a) (hb : TwoDec b) : TwoDec (a - b) := by
  obtain ⟨m, rfl⟩ := ha
  obtain ⟨n, rfl⟩ := hb
  exact ⟨m - n, by push_cast; ring⟩

lemma twoDec_add {a b : ℚ} (ha : TwoDec a) (hb : TwoDec b) : TwoDec (a + b) := by
  obtain ⟨m, rfl⟩ := ha
  obtain ⟨n, rfl⟩ := hb
  exact ⟨m + n, by push_cast; ring⟩

lemma twoDec_intMul (a : ℤ) {b : ℚ} (hb : TwoDec b) : TwoDec ((a : ℚ) * b) := by
  obtain ⟨n, rfl⟩ := hb
  exact ⟨a * n, by push_cast; ring⟩

lemma buyUnits_nonneg {c p : ℚ} (hc : 0 ≤ c) (hp : 0 < p) : 0 ≤ buyUnits c p :=
  Int.floor_nonneg.mpr (div_nonneg hc hp.le)

lemma buySpend_eq {c p : ℚ} (hp2 : TwoDec p) :
    buySpend c p = (buyUnits c p : ℚ) * p :=
  twoDec_round2 (twoDec_intMul _ hp2)

/-- The purchase of line 230 never overdraws when the price is an exact
two-decimal amount: the rounded spend is the exact spend, and
floor(cash / price) units cost at most cash. -/
lemma buySpend_le {c p : ℚ} (hp : 0 < p) (hp2 : TwoDec p) : buySpend c p ≤ c := by
  rw [buySpend_eq hp2]
  calc (buyUnits c p : ℚ) * p
      ≤ (c / p) * p := mul_le_mul_of_nonneg_right (Int.floor_le _) hp.le
    _ = c := div_mul_cancel₀ _ hp.ne'

lemma amt_ok {sh : ℤ} {d : ℚ} (hsh : 0 ≤ sh) (hd0 : 0 ≤ d) (hd2 : TwoDec d) :
    0 ≤ round2 ((sh : ℚ) * d) ∧ TwoDec (round2 ((sh : ℚ) * d)) := by
  have h2 := twoDec_intMul sh hd2
  rw [twoDec_round2 h2]
  exact ⟨mul_nonneg (by exact_mod_cast hsh) hd0, h2⟩

/-- The state invariant of the simulation loop: non-negative two-decimal
cash and non-negative unit counts. -/
def SimInv (s : SimState) : Prop :=
  0 ≤ s.cash ∧ TwoDec s.cash ∧ 0 ≤ s.sharesR ∧ 0 ≤ s.sharesL

/-- A row of two-decimal data: positive two-decimal closes and
non-negative two-decimal dividend amounts. -/
def RowOK (r : SimRow) : Prop :=
  0 < r.closeR ∧ TwoDec r.closeR ∧ 0 < r.closeL ∧ TwoDec r.closeL ∧
  (∀ d : ℚ, r.divR = some d → 0 ≤ d ∧ TwoDec d) ∧
  (∀ d : ℚ, r.divL = some d → 0 ≤ d ∧ TwoDec d)

lemma divAccrue_inv (ur : Bool) {s : SimState} {row : SimRow}
    (hs : SimInv s) (hr : RowOK row) : SimInv (divAccrue ur s row) := by
  obtain ⟨hc, hc2, hR, hL⟩ := hs
  obtain ⟨_, _, _, _, hdR, hdL⟩ := hr
  unfold divAccrue
  cases hdr : row.divR with
  | none =>
    cases ur with
    | false => exact ⟨hc, hc2, hR, hL⟩
    | true =>
      cases hdl : row.divL with
      | none => exact ⟨hc, hc2, hR, hL⟩
      | some d =>
        obtain ⟨hd0, hd2⟩ := hdL d hdl
        obtain ⟨ha0, ha2⟩ := amt_ok hL hd0 hd2
        exact ⟨add_nonneg hc ha0, twoDec_add hc2 ha2, hR, hL⟩
  | some d =>
    obtain ⟨hd0, hd2⟩ := hdR d hdr
    obtain ⟨ha0, ha2⟩ := amt_ok hR hd0 hd2
    cases ur with
    | false => exact ⟨add_nonneg hc ha0, twoDec_add hc2 ha2, hR, hL⟩
    | true =>
      cases hdl : row.divL with
      | none => exact ⟨add_nonneg hc ha0, twoDec_add hc2 ha2, hR, hL⟩
      | some e =>
        obtain ⟨he0, he2⟩ := hdL e hdl
        obtain ⟨hb0, hb2⟩ := amt_ok hL he0 he2
        exact ⟨add_nonneg (add_nonneg hc ha0) hb0,
          twoDec_add (twoDec_add hc2 ha2) hb2, hR, hL⟩

lemma sellRiskless_inv {s : SimState} {row : SimRow}
    (hs : SimInv s) (hr : RowOK row) : SimInv (sellRiskless s row) := by
  obtain ⟨hc, hc2, hR, hL⟩ := hs
  obtain ⟨ha0, ha2⟩ := amt_ok hL hr.2.2.1.le hr.2.2.2.1
  exact ⟨add_nonneg hc ha0, twoDec_add hc2 ha2, hR, le_refl 0⟩

lemma sellRisky_inv {s : SimState} {row : SimRow}
    (hs : SimInv s) (hr : RowOK row) : SimInv (sellRisky s row) := by
  obtain ⟨hc, hc2, hR, hL⟩ := hs
  obtain ⟨ha0, ha2⟩ := amt_ok hR hr.1.le hr.2.1
  exact ⟨add_nonneg hc ha0, twoDec_add hc2 ha2, le_refl 0, hL⟩

lemma buyRisky_inv {s : SimState} {row : SimRow}
    (hs : SimInv s) (hp : 0 < row.closeR) (hp2 : TwoDec row.closeR) :
    SimInv (buyRisky s row) := by
  obtain ⟨hc, hc2, hR, hL⟩ := hs
  unfold buyRisky
  dsimp only
  have hinv : SimInv { s with cash := s.cash - buySpend s.cash row.closeR,
                              sharesR := s.sharesR + buyUnits s.cash row.closeR } :=
    ⟨sub_nonneg.mpr (buySpend_le hp hp2),
     twoDec_sub hc2 (buySpend_eq hp2 ▸ twoDec_intMul _ hp2),
     add_nonneg hR (buyUnits_nonneg hc hp), hL⟩
  split
  · exact hinv
  · exact hinv

lemma buyRiskless_inv {s : SimState} {row : SimRow}
    (hs : SimInv s) (hp : 0 < row.closeL) (hp2 : TwoDec row.closeL) :
    SimInv (buyRiskless s row) := by
  obtain ⟨hc, hc2, hR, hL⟩ := hs
  unfold buyRiskless
  dsimp only
  have hinv : SimInv { s with cash := s.cash - buySpend s.cash row.closeL,
                              sharesL := s.sharesL + buyUnits s.cash row.closeL } :=
    ⟨sub_nonneg.mpr (buySpend_le hp hp2),
     twoDec_sub hc2 (buySpend_eq hp2 ▸ twoDec_intMul _ hp2),
     hR, add_nonneg hL (buyUnits_nonneg hc hp)⟩
  split
  · exact hinv
  · exact hinv

lemma riskyBranch_inv (trend : Bool) {s : SimState} {row : SimRow}
    (hs : SimInv s) (hr : RowOK row) : SimInv (riskyBranch trend s row) := by
  unfold riskyBranch
  refine buyRisky_inv ?_ hr.1 hr.2.1
  cases trend
  · exact hs
  · exact sellRiskless_inv hs hr

lemma risklessBranch_inv (trend : Bool) {s : SimState} {row : SimRow}
    (hs : SimInv s) (hr : RowOK row) : SimInv (risklessBranch trend s row) := by
  unfold risklessBranch
  cases trend
  · exact sellRisky_inv hs hr
  · exact buyRiskless_inv (sellRisky_inv hs hr) hr.2.2.1 hr.2.2.2.1

lemma addValuation_inv (ur : Bool) {s : SimState} {row : SimRow}
    (hs : SimInv s) : SimInv (addValuation ur s row) := hs

lemma step_inv (trend ur : Bool) {s : SimState} {row : SimRow}
    (hs : SimInv s) (hr : RowOK row) : SimInv (step trend ur s row) := by
  rw [step_eq]
  apply addValuation_inv
  split
  · exact riskyBranch_inv _ (divAccrue_inv _ hs hr) hr
  · exact risklessBranch_inv _ (divAccrue_inv _ hs hr) hr

lemma foldl_step_inv (trend ur : Bool) (rows : List SimRow) :
    ∀ s : SimState, SimInv s → (∀ r ∈ rows, RowOK r) →
      SimInv (List.foldl (step trend ur) s rows) := by
  induction rows with
  | nil => intro s hs _; exact hs
  | cons r rest ih =>
    intro s hs hr
    rw [List.foldl_cons]
    exact ih _ (step_inv _ _ hs (hr r (List.mem_cons_self r rest)))
      (fun x hx => hr x (List.mem_cons_of_mem r hx))

/-- Claim C1, amended to what the code guarantees: when the initial cash,
every close price and every dividend amount are exact multiples of 0.01
(prices positive, dividends non-negative), the cash balance and both unit
holdings are non-negative after every prefix of the run, and a purchase at
any two-decimal price spends at most the available cash, buying a
non-negative number of units when that cash is non-negative. The original
unconditional claim is false: with a price of more than two decimals the
rounded spend can exceed the available cash (see the counterexample). -/
theorem C1_amended (trend ur : Bool) (ic : ℚ) (rows : List SimRow)
    (hic : 0 ≤ ic) (hic2 : TwoDec ic) (hrows : ∀ r ∈ rows, RowOK r) :
    (∀ k : ℕ,
      0 ≤ (historical_return trend ur ic (rows.take k)).cash ∧
      0 ≤ (historical_return trend ur ic (rows.take k)).sharesR ∧
      0 ≤ (historical_return trend ur ic (rows.take k)).sharesL) ∧
    (∀ c p : ℚ, 0 < p → TwoDec p →
      buySpend c p ≤ c ∧ (0 ≤ c → 0 ≤ buyUnits c p)) := by
  constructor
  · intro k
    have hsub : ∀ r ∈ rows.take k, RowOK r :=
      fun r hr => hrows r (List.take_subset k rows hr)
    unfold historical_return
    cases htk : rows.take k with
    | nil => exact ⟨hic, le_refl 0, le_refl 0⟩
    | cons r rest =>
      rw [htk] at hsub
      have hinv : SimInv
          (List.foldl (step trend ur) ⟨ic, 0, 0, [], [(r.date, ic)]⟩ (r :: rest)) :=
        foldl_step_inv trend ur (r :: rest) _ ⟨hic, hic2, le_refl 0, le_refl 0⟩ hsub
      exact ⟨hinv.1, hinv.2.2.1, hinv.2.2.2⟩
  · intro c p hp hp2
    exact ⟨buySpend_le hp hp2, fun hc => buyUnits_nonneg hc hp⟩

/-- Witness for C1 at a concrete two-decimal run: initial cash 10000, one
period with close 100, as in the specification's worked example. -/
theorem C1_witness :
    0 ≤ (historical_return false false 10000
        (([⟨0, 100, none, 1, none, none⟩] : List SimRow).take 1)).cash :=
  ((C1_amended false false 10000 [⟨0, 100, none, 1, none, none⟩] (by norm_num)
      ⟨1000000, by norm_num⟩ (by
        intro r hr
        simp only [List.mem_singleton] at hr
        subst hr
        refine ⟨by norm_num, ⟨10000, by norm_num⟩, by norm_num, ⟨100, by norm_num⟩, ?_, ?_⟩
        · intro d h
          exact Option.noConfusion h
        · intro d h
          exact Option.noConfusion h)).1 1).1

end Invest
